import Mathlib

/-!
# DSXpert — verification of the diff-and-render core

Shallow embedding of the DSXpert VS Code extension's reviewable-diff pipeline:

* `diffLines` — the line-oriented diff (`computeDiff` in the spec). The extension
  calls the third-party `diff` npm package (`src/media/diff.js` re-exports
  `Diff.diffLines`); that library's source is not part of this repository, so the
  algorithm is modelled from the spec: a line-oriented LCS-style diff that
  partitions both texts into runs of matching lines (unchanged) and runs present
  only in one side (added / removed), with adjacent same-kind runs merged into
  one segment.
* `highlightChanges` — the webview renderer (`media/script.js`): clears the
  `#optimized-code` element and appends one styled span per diff segment.
* `handleWebviewMessage` — the host-side message handler registered in
  `activate` (`src/extension.ts`): on `accept` it replaces the full original
  range with the optimized code and disposes the panel, on `reject` it only
  disposes the panel, and it ignores every other command.
* `detectLanguage` — the regex-based language detector (`src/extension.ts`),
  with a small Brzozowski-derivative regex matcher standing in for JavaScript
  `RegExp.test`.
* `formatCode` — the two formatter facilities (prettier-based and
  shell-command-based), with the external formatter processes as oracles.
-/

namespace DSXpert

/-! ## Diff data model -/

/-- The classification of a diff segment (jsdiff marks parts `added`,
`removed`, or neither). -/
inductive Kind where
  | unchanged
  | added
  | removed
deriving DecidableEq, Repr

/-- One element of the diff output: a run of lines plus its classification. -/
structure DiffSegment where
  text : String
  kind : Kind
deriving DecidableEq, Repr

/-! ## String helpers -/

/-- Concatenate a list of strings. -/
def strConcat : List String → String
  | [] => ""
  | s :: rest => s ++ strConcat rest

theorem strAppend_assoc (a b c : String) : a ++ b ++ c = a ++ (b ++ c) :=
  String.ext (by simp [String.data_append, List.append_assoc])

theorem strAppend_empty (a : String) : a ++ "" = a :=
  String.ext (by simp [String.data_append])

theorem strConcat_map_mk (l : List (List Char)) :
    strConcat (l.map String.mk) = String.mk l.flatten := by
  induction l with
  | nil => rfl
  | cons a rest ih =>
      simp only [List.map_cons, strConcat, ih, List.flatten]
      rfl

/-- Split a string into lines, each line keeping its terminating newline
(the tokenization used by line-oriented diffing). Accumulator holds the
current line's characters in reverse. -/
def splitLinesAux : List Char → List Char → List (List Char)
  | [], [] => []
  | [], acc => [acc.reverse]
  | c :: rest, acc =>
    if c = '\n' then (acc.reverse ++ [c]) :: splitLinesAux rest []
    else splitLinesAux rest (c :: acc)

/-- Split a string into lines keeping newline terminators. -/
def splitLines (s : String) : List String :=
  (splitLinesAux s.data []).map String.mk

theorem splitLinesAux_join (l : List Char) :
    ∀ acc, (splitLinesAux l acc).flatten = acc.reverse ++ l := by
  induction l with
  | nil =>
      intro acc
      cases acc with
      | nil => rfl
      | cons a as => simp [splitLinesAux]
  | cons c rest ih =>
      intro acc
      by_cases hc : c = '\n'
      · simp [splitLinesAux, hc, ih]
      · simp [splitLinesAux, hc, ih (c :: acc)]

theorem strConcat_splitLines (s : String) : strConcat (splitLines s) = s := by
  rw [splitLines, strConcat_map_mk, splitLinesAux_join s.data []]
  cases s
  rfl

theorem splitLinesAux_ne_nil (l : List Char) :
    ∀ acc, l ≠ [] ∨ acc ≠ [] → splitLinesAux l acc ≠ [] := by
  induction l with
  | nil =>
      intro acc h
      cases acc with
      | nil => rcases h with h | h <;> simp at h
      | cons a as => simp [splitLinesAux]
  | cons c rest ih =>
      intro acc _
      by_cases hc : c = '\n'
      · simp [splitLinesAux, hc]
      · simpa [splitLinesAux, hc] using ih (c :: acc) (Or.inr (by simp))

theorem splitLines_ne_nil (s : String) (h : s ≠ "") : splitLines s ≠ [] := by
  have hd : s.data ≠ [] := by
    intro hnil
    apply h
    cases s with
    | mk data => subst hnil; rfl
  simp only [splitLines, ne_eq, List.map_eq_nil_iff]
  exact splitLinesAux_ne_nil s.data [] (Or.inl hd)

/-! ## The token-level diff

Modelled from the spec: a longest-common-subsequence-style diff over line
tokens — matching heads are emitted as `unchanged`; at a mismatch the cheaper
(fewest added/removed tokens) of remove-first and add-first is taken. -/

/-- Number of added/removed entries in an edit script. -/
def editCost : List (Kind × String) → Nat
  | [] => 0
  | (Kind.unchanged, _) :: rest => editCost rest
  | (_, _) :: rest => editCost rest + 1

/-- Modelled from the spec: LCS-style line diff producing one entry per line
token, classified `unchanged`, `added` or `removed`. -/
def diffTok : List String → List String → List (Kind × String)
  | [], [] => []
  | [], b :: bs => (Kind.added, b) :: diffTok [] bs
  | a :: as, [] => (Kind.removed, a) :: diffTok as []
  | a :: as, b :: bs =>
    if a = b then (Kind.unchanged, a) :: diffTok as bs
    else
      let d1 := (Kind.removed, a) :: diffTok as (b :: bs)
      let d2 := (Kind.added, b) :: diffTok (a :: as) bs
      if editCost d1 ≤ editCost d2 then d1 else d2
termination_by as bs => as.length + bs.length

/-- Merge adjacent equal-kind token entries into maximal segments
(jsdiff returns one component per maximal run). -/
def mergeTok : List (Kind × String) → List DiffSegment
  | [] => []
  | (k, t) :: rest =>
    match mergeTok rest with
    | [] => [⟨t, k⟩]
    | seg :: segs =>
      if seg.kind = k then ⟨t ++ seg.text, k⟩ :: segs
      else ⟨t, k⟩ :: seg :: segs

/-- Modelled from the spec: `computeDiff` (the extension's `Diff.diffLines`,
re-exported by `src/media/diff.js` from the third-party diff library, whose
source is not in this repository). Line-oriented LCS-style diff; identical
inputs (including empty) yield a single unchanged segment. -/
def diffLines (original modified : String) : List DiffSegment :=
  if original = modified then [⟨original, Kind.unchanged⟩]
  else mergeTok (diffTok (splitLines original) (splitLines modified))

/-- Keep a token/segment when reconstructing the original text. -/
def keepOrig : Kind → Bool
  | Kind.added => false
  | _ => true

/-- Keep a token/segment when reconstructing the modified text. -/
def keepMod : Kind → Bool
  | Kind.removed => false
  | _ => true

/-- Concatenate the texts of the segments a kind-filter keeps. -/
def concatKept (keep : Kind → Bool) (segs : List DiffSegment) : String :=
  strConcat ((segs.filter (fun seg => keep seg.kind)).map DiffSegment.text)

/-- Concatenate the texts of the token entries a kind-filter keeps. -/
def concatKeptTok (keep : Kind → Bool) (d : List (Kind × String)) : String :=
  strConcat ((d.filter (fun p => keep p.1)).map Prod.snd)

theorem concatKept_cons (keep : Kind → Bool) (seg : DiffSegment)
    (segs : List DiffSegment) :
    concatKept keep (seg :: segs) =
      if keep seg.kind then seg.text ++ concatKept keep segs
      else concatKept keep segs := by
  by_cases h : keep seg.kind <;> simp [concatKept, List.filter_cons, h, strConcat]

theorem concatKeptTok_cons (keep : Kind → Bool) (p : Kind × String)
    (d : List (Kind × String)) :
    concatKeptTok keep (p :: d) =
      if keep p.1 then p.2 ++ concatKeptTok keep d else concatKeptTok keep d := by
  by_cases h : keep p.1 <;> simp [concatKeptTok, List.filter_cons, h, strConcat]

@[simp] theorem keepOrig_unchanged : keepOrig Kind.unchanged = true := rfl

@[simp] theorem keepOrig_added : keepOrig Kind.added = false := rfl

@[simp] theorem keepOrig_removed : keepOrig Kind.removed = true := rfl

@[simp] theorem keepMod_unchanged : keepMod Kind.unchanged = true := rfl

@[simp] theorem keepMod_added : keepMod Kind.added = true := rfl

@[simp] theorem keepMod_removed : keepMod Kind.removed = false := rfl

/-- Token-level reconstruction: filtering the edit script for original-side
(resp. modified-side) tokens gives back exactly the original (resp. modified)
token list. -/
theorem diffTok_keep (as bs : List String) :
    ((diffTok as bs).filter (fun p => keepOrig p.1)).map Prod.snd = as ∧
    ((diffTok as bs).filter (fun p => keepMod p.1)).map Prod.snd = bs := by
  induction as, bs using diffTok.induct with
  | case1 => simp [diffTok]
  | case2 b bs ih => simp [diffTok, List.filter_cons, ih]
  | case3 a as ih => simp [diffTok, List.filter_cons, ih]
  | case4 as b bs ih => simp [diffTok, List.filter_cons, ih]
  | case5 a as b bs hab d1 d2 hcost ih1 ih2 =>
      rw [diffTok, if_neg hab]
      dsimp only
      split
      · simp [List.filter_cons, ih1, ih2]
      · simp [List.filter_cons, ih1, ih2]
  | case6 a as b bs hab d1 d2 hcost ih1 ih2 =>
      rw [diffTok, if_neg hab]
      dsimp only
      split
      · simp [List.filter_cons, ih1, ih2]
      · simp [List.filter_cons, ih1, ih2]

/-- Merging adjacent equal-kind entries does not change any kind-filtered
concatenation. -/
theorem concatKept_mergeTok (keep : Kind → Bool) (d : List (Kind × String)) :
    concatKept keep (mergeTok d) = concatKeptTok keep d := by
  induction d with
  | nil => rfl
  | cons p rest ih =>
      obtain ⟨k, t⟩ := p
      rw [mergeTok]
      cases hm : mergeTok rest with
      | nil =>
          rw [hm] at ih
          have h0 : concatKeptTok keep rest = "" := by
            rw [← ih]; rfl
          dsimp only
          rw [concatKeptTok_cons, h0]
          by_cases hk : keep k <;>
            simp [concatKept, List.filter_cons, hk, strConcat, strAppend_empty]
      | cons seg segs =>
          rw [hm] at ih
          dsimp only
          by_cases hks : seg.kind = k
          · rw [if_pos hks]
            rw [concatKeptTok_cons, ← ih, concatKept_cons, concatKept_cons, hks]
            by_cases hk : keep k <;> simp [hk, strAppend_assoc]
          · rw [if_neg hks]
            rw [concatKeptTok_cons, ← ih, concatKept_cons]

theorem diffTok_nil_left (bs : List String) :
    diffTok [] bs = bs.map (fun b => (Kind.added, b)) := by
  induction bs with
  | nil => simp [diffTok]
  | cons b bs ih => simp [diffTok, ih]

theorem diffTok_nil_right (as : List String) :
    diffTok as [] = as.map (fun a => (Kind.removed, a)) := by
  induction as with
  | nil => simp [diffTok]
  | cons a as ih => simp [diffTok, ih]

/-- A non-empty uniform-kind edit script merges into a single segment holding
the concatenation of all its texts. -/
theorem mergeTok_uniform (k : Kind) (l : List String) (h : l ≠ []) :
    mergeTok (l.map (fun t => (k, t))) = [⟨strConcat l, k⟩] := by
  induction l with
  | nil => cases h rfl
  | cons t rest ih =>
      cases rest with
      | nil => simp [mergeTok, strConcat, strAppend_empty]
      | cons u us =>
          rw [List.map_cons, mergeTok, ih (by simp)]
          simp [strConcat]

/-! ## Claim theorems about the diff -/

/-- C1: For every pair of text blobs (A, B), concatenating the texts of the
segments of `diffLines A B` whose kind is unchanged or added, in sequence
order, yields exactly B, and concatenating the texts of the segments whose
kind is unchanged or removed yields exactly A. -/
theorem diffLines_reconstructs (A B : String) :
    concatKept keepMod (diffLines A B) = B ∧
    concatKept keepOrig (diffLines A B) = A := by
  by_cases hAB : A = B
  · subst hAB
    constructor <;>
      simp [diffLines, concatKept, List.filter_cons, strConcat, strAppend_empty]
  · rw [diffLines, if_neg hAB]
    constructor
    · rw [concatKept_mergeTok, concatKeptTok,
        (diffTok_keep (splitLines A) (splitLines B)).2, strConcat_splitLines]
    · rw [concatKept_mergeTok, concatKeptTok,
        (diffTok_keep (splitLines A) (splitLines B)).1, strConcat_splitLines]

/-- C3: For every pair of identical text blobs (A, A), including empty A,
`diffLines` yields exactly one segment, of kind unchanged, whose text is A. -/
theorem diffLines_identical (A : String) :
    diffLines A A = [⟨A, Kind.unchanged⟩] := by
  simp [diffLines]

/-- C4: When exactly one input is empty and the other non-empty, `diffLines`
yields a single segment with the non-empty blob's full text: kind added when
the original is empty, kind removed when the modified is empty. -/
theorem diffLines_one_empty (B : String) (h : B ≠ "") :
    diffLines "" B = [⟨B, Kind.added⟩] ∧
    diffLines B "" = [⟨B, Kind.removed⟩] := by
  have hs : splitLines "" = [] := rfl
  have hB : splitLines B ≠ [] := splitLines_ne_nil B h
  constructor
  · rw [diffLines, if_neg (fun he => h he.symm), hs, diffTok_nil_left,
      mergeTok_uniform Kind.added _ hB, strConcat_splitLines]
  · rw [diffLines, if_neg h, hs, diffTok_nil_right,
      mergeTok_uniform Kind.removed _ hB, strConcat_splitLines]

/-- Witness for C4 at the concrete non-empty blob "x\n". -/
theorem diffLines_one_empty_witness :
    ("x\n" : String) ≠ "" ∧
    (diffLines "" "x\n" = [⟨"x\n", Kind.added⟩] ∧
      diffLines "x\n" "" = [⟨"x\n", Kind.removed⟩]) :=
  ⟨by decide, diffLines_one_empty "x\n" (by decide)⟩

/-! ## The webview renderer (`media/script.js`, `highlightChanges`) -/

/-- One DOM span appended to the `#optimized-code` element: its text content
and the single CSS class added to it. -/
structure Span where
  textContent : String
  cssClass : String
deriving DecidableEq, Repr

/-- The class chosen in the `diff.forEach` body of `highlightChanges`:
`hl-added` if the part is marked added, else `hl-removed` if marked removed,
else `hl-unchanged`. -/
def classOf : Kind → String
  | Kind.added => "hl-added"
  | Kind.removed => "hl-removed"
  | Kind.unchanged => "hl-unchanged"

/-- `highlightChanges` (media/script.js): computes the line diff of the two
blobs, clears the display element (`innerHTML = ""`), then appends one span
per diff part. The prior contents of the surface are discarded by the clear. -/
def highlightChanges (originalCode optimizedCode : String)
    (surface : List Span) : List Span :=
  let cleared := surface.take 0
  cleared ++ (diffLines originalCode optimizedCode).map
    (fun part => ⟨part.text, classOf part.kind⟩)

/-- The `innerText` of the display element: the concatenation of its spans'
text contents in order. -/
def innerTextOf : List Span → String
  | [] => ""
  | sp :: rest => sp.textContent ++ innerTextOf rest

/-! ## The review-surface messages and the host-side handler -/

/-- A message posted from the webview to the host: a command name and the
optional `code` payload. -/
structure WebviewMessage where
  command : String
  code : Option String
deriving DecidableEq, Repr

/-- The webview's `accept` handler (media/script.js): reads the current
`innerText` of `#optimized-code` and posts it as the accept message's `code`
payload. -/
def acceptMessage (surface : List Span) : WebviewMessage :=
  ⟨"accept", some (innerTextOf surface)⟩

/-- The webview's `reject` handler (media/script.js): posts `reject` with no
payload. -/
def rejectMessage : WebviewMessage :=
  ⟨"reject", none⟩

/-- The host editor state visible to the review cycle: the active document's
text and whether the review panel is open. -/
structure HostState where
  document : String
  panelOpen : Bool
deriving DecidableEq, Repr

/-- Replacing the range from `positionAt 0` to `positionAt len` of a document
with `replacement` (the handler's `fullRange` edit). -/
def replaceRange0 (doc : String) (len : Nat) (replacement : String) : String :=
  replacement ++ String.mk (doc.data.drop len)

/-- The host-side `onDidReceiveMessage` handler (the `activate` command of the
extension): on `accept` it replaces the full original range with the closure
variable `code` — the optimized code that was passed to the webview, not the
message's `code` payload — and disposes the panel; on `reject` it only
disposes the panel; any other command falls through the switch and changes
nothing. -/
def handleWebviewMessage (userCode code : String) (msg : WebviewMessage)
    (st : HostState) : HostState :=
  if msg.command = "accept" then
    ⟨replaceRange0 st.document userCode.length code, false⟩
  else if msg.command = "reject" then
    ⟨st.document, false⟩
  else st

/-- One review cycle of the `dsxpert.optimizeCode` command: a failed
`getOptimizedCode` call is caught and only reports an error message (no
edit); a successful one shows the webview and applies the reviewer's
decision message. -/
def optimizeCycle (st : HostState) (aiResult : Except String String)
    (decision : WebviewMessage) : HostState :=
  match aiResult with
  | Except.error _ => st
  | Except.ok code => handleWebviewMessage st.document code decision st

/-! ## Claim theorems about the review cycle -/

/-- C5: the reject decision emits no replacement and leaves the original text
exactly unchanged, and a failed optimization attempt (the caught error path)
never modifies the reviewer's original content. -/
theorem reject_preserves_original (userCode code : String)
    (payload : Option String) (st : HostState) (err : String)
    (decision : WebviewMessage) :
    (handleWebviewMessage userCode code ⟨"reject", payload⟩ st).document
        = st.document ∧
    optimizeCycle st (Except.error err) decision = st :=
  ⟨rfl, rfl⟩

/-- C8: the host handler acts only on the two inbound message shapes
`accept` and `reject`; a message with any other command produces no
state-changing action — no replacement is emitted and the panel is not
disposed. -/
theorem handler_ignores_other_commands (userCode code : String)
    (msg : WebviewMessage) (st : HostState)
    (h1 : msg.command ≠ "accept") (h2 : msg.command ≠ "reject") :
    handleWebviewMessage userCode code msg st = st := by
  simp [handleWebviewMessage, h1, h2]

/-- Witness for C8 at the concrete command "ping". -/
theorem handler_ignores_other_commands_witness :
    (("ping" : String) ≠ "accept" ∧ ("ping" : String) ≠ "reject") ∧
    handleWebviewMessage "a" "b" ⟨"ping", none⟩ ⟨"a", true⟩ = ⟨"a", true⟩ :=
  ⟨⟨by decide, by decide⟩,
    handler_ignores_other_commands "a" "b" ⟨"ping", none⟩ ⟨"a", true⟩
      (by decide) (by decide)⟩

theorem diffTok_single_ne (a b : String) (h : a ≠ b) :
    diffTok [a] [b] = [(Kind.removed, a), (Kind.added, b)] := by
  rw [diffTok, if_neg h]
  dsimp only
  rw [diffTok_nil_left, diffTok_nil_right]
  simp [editCost]

/-- C2 as stated fails on the code: at original "a\n" and optimized "b\n",
the accept handler writes back the host's optimized code "b\n", while the
displayed modified view — which also shows the removed run — reads
"a\nb\n"; the message's `code` payload carrying the displayed text is
ignored. -/
theorem accept_displayed_text_counterexample :
    (handleWebviewMessage "a\n" "b\n"
        (acceptMessage (highlightChanges "a\n" "b\n" []))
        ⟨"a\n", true⟩).document
      ≠ innerTextOf (highlightChanges "a\n" "b\n" []) := by
  have hd : diffLines "a\n" "b\n"
      = [⟨"a\n", Kind.removed⟩, ⟨"b\n", Kind.added⟩] := by
    rw [diffLines, if_neg (by decide : ¬(("a\n" : String) = "b\n"))]
    have h1 : splitLines "a\n" = ["a\n"] := rfl
    have h2 : splitLines "b\n" = ["b\n"] := rfl
    rw [h1, h2, diffTok_single_ne "a\n" "b\n" (by decide)]
    rfl
  simp only [highlightChanges, hd, acceptMessage, handleWebviewMessage,
    innerTextOf, classOf, replaceRange0, List.take, List.map, List.nil_append]
  decide

/-- C2 amended: on accept, the text written back into the editor document is
the optimized code computed by the host (the closure variable `code` passed
to the webview); the accept message's `code` payload — the displayed text,
manual edits included — has no effect on the emitted replacement. -/
theorem accept_writes_back_optimized_code (userCode optimizedCode : String)
    (payload : Option String) (st : HostState) (h : st.document = userCode) :
    (handleWebviewMessage userCode optimizedCode ⟨"accept", payload⟩
        st).document = optimizedCode := by
  simp only [handleWebviewMessage, if_pos rfl, replaceRange0, h]
  have hlen : userCode.length = userCode.data.length := rfl
  rw [hlen, List.drop_length]
  exact strAppend_empty optimizedCode

/-- Witness for the amended C2 at a concrete state, with a payload that
differs from the written text. -/
theorem accept_writes_back_optimized_code_witness :
    (⟨"a\n", true⟩ : HostState).document = "a\n" ∧
    (handleWebviewMessage "a\n" "b\n" ⟨"accept", some "zzz"⟩
        ⟨"a\n", true⟩).document = "b\n" :=
  ⟨rfl, accept_writes_back_optimized_code "a\n" "b\n" (some "zzz")
    ⟨"a\n", true⟩ rfl⟩

/-- Being exactly one of the three highlight classes, to the exclusion of the
other two. -/
def exactlyOneClass (c : String) : Prop :=
  (c = "hl-added" ∧ c ≠ "hl-removed" ∧ c ≠ "hl-unchanged") ∨
  (c = "hl-removed" ∧ c ≠ "hl-added" ∧ c ≠ "hl-unchanged") ∨
  (c = "hl-unchanged" ∧ c ≠ "hl-added" ∧ c ≠ "hl-removed")

/-- C7: rendering is idempotent — re-rendering the same segment sequence
yields the same surface — the output does not depend on the prior surface
contents (the element is cleared first, so rendering is purely a presentation
transform), and every segment kind is styled with exactly one of the three
mutually exclusive classes. -/
theorem render_idempotent_exclusive (o m : String) (s s2 : List Span) :
    highlightChanges o m (highlightChanges o m s) = highlightChanges o m s ∧
    highlightChanges o m s = highlightChanges o m s2 ∧
    ∀ k : Kind, exactlyOneClass (classOf k) := by
  refine ⟨rfl, rfl, ?_⟩
  intro k
  cases k <;> simp [classOf, exactlyOneClass]

/-- The error signalled when a diff/render input is not representable as
text. -/
inductive DiffError where
  | InputError
deriving DecidableEq, Repr

/-- Modelled from the spec: the failure semantics of the diff/render
operation. An input that is not representable as text (JavaScript
`undefined`, modelled as `none`) makes the operation fail with an
`InputError`, leaving the display surface untouched; two well-formed text
inputs always render. The repository's `highlightChanges` delegates to the
third-party diff library, whose undefined-input behaviour is not in this
repository. -/
def highlightChangesChecked : Option String → Option String → List Span →
    Except DiffError Unit × List Span
  | some o, some m, surface => (Except.ok (), highlightChanges o m surface)
  | none, _, surface => (Except.error DiffError.InputError, surface)
  | _, none, surface => (Except.error DiffError.InputError, surface)

/-- C6: a missing (undefined) input makes the diff/render operation fail with
`InputError` and no rendering occurs — the surface is returned untouched —
while on well-formed text inputs the operation always succeeds and renders. -/
theorem checked_diff_render_spec (o m : String) (a : Option String)
    (s : List Span) :
    highlightChangesChecked (some o) (some m) s
        = (Except.ok (), highlightChanges o m s) ∧
    highlightChangesChecked none a s
        = (Except.error DiffError.InputError, s) ∧
    highlightChangesChecked a none s
        = (Except.error DiffError.InputError, s) := by
  refine ⟨rfl, ?_, ?_⟩ <;> cases a <;> rfl

/-! ## The formatter facilities -/

/-- An error raised by an external formatter. -/
inductive FormatError where
  | failed
deriving DecidableEq, Repr

/-- The prettier-based `formatCode`: for javascript/typescript it runs the
external `prettier.format` (an oracle here); any other language returns the
input unchanged; a formatter error is caught and the input is returned
unchanged. -/
def formatCode (prettierFormat : String → Except FormatError String)
    (code language : String) : String :=
  if language = "javascript" ∨ language = "typescript" then
    match prettierFormat code with
    | Except.ok formatted => formatted
    | Except.error _ => code
  else code

/-- The shell command chosen by the exec-based `formatCode` switch; `none`
for a language with no case (the default resolves the code unformatted). -/
def commandFor (language : String) : Option String :=
  if language = "javascript" ∨ language = "typescript" then
    some ("npx prettier --parser " ++ language ++ " --stdin-filepath temp."
      ++ language)
  else if language = "python" then some "black -q -"
  else if language = "java" then some "google-java-format -"
  else if language = "cpp" ∨ language = "c" ∨ language = "c++" then
    some "clang-format"
  else if language = "csharp" then some "dotnet format --folder"
  else if language = "ruby" then some "ruby -c"
  else if language = "php" then some "php -l"
  else if language = "swift" then some "swift-format format --stdin"
  else if language = "go" then some "gofmt"
  else if language = "rust" then some "rustfmt"
  else none

/-- The exec-based `formatCode`: no command for the language resolves the
input unchanged; a process error resolves the input unchanged; success
resolves the process's trimmed stdout. `run` is the external formatter
process as an oracle (command and stdin to stdout or error). -/
def formatCodeExec (run : String → String → Except FormatError String)
    (code language : String) : String :=
  match commandFor language with
  | none => code
  | some cmd =>
    match run cmd code with
    | Except.error _ => code
    | Except.ok stdout => stdout.trim

/-- C9: each formatter facility returns either the externally formatted code
or the input blob exactly unchanged: unchanged whenever no formatter is
available for the language, and unchanged (rather than failing) whenever the
underlying formatter raises an error. -/
theorem formatCode_spec (fmt : String → Except FormatError String)
    (run : String → String → Except FormatError String)
    (code language : String) :
    (formatCode fmt code language = code ∨
      ∃ f, fmt code = Except.ok f ∧ formatCode fmt code language = f) ∧
    (language ≠ "javascript" → language ≠ "typescript" →
      formatCode fmt code language = code) ∧
    (∀ e, fmt code = Except.error e → formatCode fmt code language = code) ∧
    (commandFor language = none → formatCodeExec run code language = code) ∧
    (∀ cmd e, commandFor language = some cmd →
      run cmd code = Except.error e → formatCodeExec run code language = code) ∧
    (∀ cmd out, commandFor language = some cmd →
      run cmd code = Except.ok out →
      formatCodeExec run code language = out.trim) := by
  refine ⟨?_, ?_, ?_, ?_, ?_, ?_⟩
  · by_cases hl : language = "javascript" ∨ language = "typescript"
    · cases hf : fmt code with
      | ok f => exact Or.inr ⟨f, rfl, by simp [formatCode, hl, hf]⟩
      | error e => exact Or.inl (by simp [formatCode, hl, hf])
    · exact Or.inl (by simp [formatCode, hl])
  · intro h1 h2
    simp [formatCode, h1, h2]
  · intro e he
    by_cases hl : language = "javascript" ∨ language = "typescript" <;>
      simp [formatCode, hl, he]
  · intro hc
    simp [formatCodeExec, hc]
  · intro cmd e hc hr
    simp [formatCodeExec, hc, hr]
  · intro cmd out hc hr
    simp [formatCodeExec, hc, hr]

/-- Witness for C9: a language with no formatter ("python" for the prettier
variant) is returned unchanged, and a failing formatter process is returned
unchanged. -/
theorem formatCode_spec_witness :
    formatCode (fun s => Except.ok (s ++ "\n")) "x" "python" = "x" ∧
    formatCodeExec (fun _ _ => Except.error FormatError.failed) "x" "python"
      = "x" :=
  ⟨(formatCode_spec (fun s => Except.ok (s ++ "\n"))
      (fun _ _ => Except.error FormatError.failed) "x" "python").2.1
      (by decide) (by decide),
    (formatCode_spec (fun s => Except.ok (s ++ "\n"))
      (fun _ _ => Except.error FormatError.failed) "x" "python").2.2.2.2.1
      "black -q -" FormatError.failed rfl rfl⟩

/-! ## The language detector (`detectLanguage`) and its regex patterns -/

/-- A small regular-expression AST covering the constructs used by the
`detectLanguage` patterns. -/
inductive Rx where
  | fail
  | eps
  | char (c : Char)
  | cls (p : Char → Bool)
  | seq (r1 r2 : Rx)
  | alt (r1 r2 : Rx)
  | star (r : Rx)

/-- Whether the regex accepts the empty word. -/
def rxNullable : Rx → Bool
  | Rx.fail => false
  | Rx.eps => true
  | Rx.char _ => false
  | Rx.cls _ => false
  | Rx.seq r1 r2 => rxNullable r1 && rxNullable r2
  | Rx.alt r1 r2 => rxNullable r1 || rxNullable r2
  | Rx.star _ => true

/-- Brzozowski derivative of the regex by one character. -/
def rxDeriv : Rx → Char → Rx
  | Rx.fail, _ => Rx.fail
  | Rx.eps, _ => Rx.fail
  | Rx.char c, a => if a = c then Rx.eps else Rx.fail
  | Rx.cls p, a => if p a then Rx.eps else Rx.fail
  | Rx.seq r1 r2, a =>
    if rxNullable r1 then
      Rx.alt (Rx.seq (rxDeriv r1 a) r2) (rxDeriv r2 a)
    else Rx.seq (rxDeriv r1 a) r2
  | Rx.alt r1 r2, a => Rx.alt (rxDeriv r1 a) (rxDeriv r2 a)
  | Rx.star r, a => Rx.seq (rxDeriv r a) (Rx.star r)

/-- Whether the regex matches some prefix of the word. -/
def rxMatchesPrefix : Rx → List Char → Bool
  | r, [] => rxNullable r
  | r, c :: rest => rxNullable r || rxMatchesPrefix (rxDeriv r c) rest

/-- Unanchored search, the semantics of JavaScript `RegExp.test`: the regex
matches a substring starting at some position. -/
def rxTest (r : Rx) : List Char → Bool
  | [] => rxNullable r
  | c :: rest => rxMatchesPrefix r (c :: rest) || rxTest r rest

/-- JavaScript regex class backslash-s (whitespace, ASCII portion). -/
def wsChar (c : Char) : Bool :=
  c = ' ' || c = '\t' || c = '\n' || c = '\r' || c = '\x0b' || c = '\x0c'

/-- JavaScript regex class backslash-w: [A-Za-z0-9_]. -/
def wordChar (c : Char) : Bool :=
  ('a' ≤ c && c ≤ 'z') || ('A' ≤ c && c ≤ 'Z') || ('0' ≤ c && c ≤ '9')
    || c = '_'

/-- JavaScript regex dot: any character except a line terminator. -/
def dotChar (c : Char) : Bool :=
  !(c = '\n' || c = '\r' || c = Char.ofNat 0x2028 || c = Char.ofNat 0x2029)

/-- The regex matching a string literally. -/
def rxStr (s : String) : Rx :=
  s.data.foldr (fun c r => Rx.seq (Rx.char c) r) Rx.eps

/-- Concatenation of a list of regexes. -/
def rxCat (l : List Rx) : Rx :=
  l.foldr Rx.seq Rx.eps

/-- One or more repetitions. -/
def rxPlus (r : Rx) : Rx := Rx.seq r (Rx.star r)

/-- One or more whitespace characters. -/
def ws1 : Rx := rxPlus (Rx.cls wsChar)

/-- Zero or more whitespace characters. -/
def ws0 : Rx := Rx.star (Rx.cls wsChar)

/-- One or more word characters. -/
def word1 : Rx := rxPlus (Rx.cls wordChar)

def pythonRx : Rx :=
  rxCat [rxStr "def", ws1, word1, ws0, Rx.char '(']

def javaRx : Rx :=
  Rx.alt (rxCat [rxStr "public", ws1, rxStr "class", ws1])
    (rxCat [rxStr "void", ws1, rxStr "main", ws0, Rx.char '('])

def cppRx : Rx :=
  Rx.alt
    (rxCat [rxStr "#include", ws1, Rx.char '<', Rx.star (Rx.cls dotChar),
      Rx.char '>'])
    (rxCat [rxStr "int", ws1, rxStr "main", ws0, Rx.char '('])

def javascriptRx : Rx :=
  Rx.alt (rxCat [rxStr "function", ws1, word1, ws0, Rx.char '('])
    (rxCat [rxStr "const", ws1, word1, ws0, Rx.char '=', ws0, Rx.char '(',
      Rx.char ')', ws0, rxStr "=>"])

def csharpRx : Rx :=
  Rx.alt (rxCat [rxStr "using", ws1, rxStr "System;"])
    (Rx.alt (rxCat [rxStr "class", ws1, word1, ws0, Rx.char '\x7b'])
      (rxCat [rxStr "static", ws1, rxStr "void", ws1, rxStr "Main", ws0,
        Rx.char '(']))

def rubyRx : Rx :=
  Rx.alt (rxCat [rxStr "def", ws1, word1])
    (Rx.alt (rxCat [rxStr "class", ws1, word1])
      (rxCat [rxStr "module", ws1, word1]))

def phpRx : Rx :=
  Rx.alt (rxStr "<?php")
    (rxCat [rxStr "function", ws1, word1, ws0, Rx.char '('])

def swiftRx : Rx :=
  Rx.alt (rxCat [rxStr "import", ws1, rxStr "Foundation"])
    (rxCat [rxStr "func", ws1, word1, ws0, Rx.char '('])

def goRx : Rx :=
  Rx.alt (rxCat [rxStr "package", ws1, rxStr "main"])
    (rxCat [rxStr "func", ws1, rxStr "main", ws0, Rx.char '('])

def rustRx : Rx :=
  rxCat [rxStr "fn", ws1, rxStr "main", ws0, Rx.char '(']

/-- The pattern table of `detectLanguage`, in the source's insertion order
(the iteration order of `Object.entries` over string keys). -/
def languagePatterns : List (String × Rx) :=
  [("python", pythonRx), ("java", javaRx), ("cpp", cppRx),
   ("javascript", javascriptRx), ("csharp", csharpRx), ("ruby", rubyRx),
   ("php", phpRx), ("swift", swiftRx), ("go", goRx), ("rust", rustRx)]

/-- The loop body of `detectLanguage`: return the first table entry whose
pattern tests true; `unknown` when none does. -/
def findLang : List (String × Rx) → String → String
  | [], _ => "unknown"
  | (lang, rx) :: rest, code =>
    if rxTest rx code.data then lang else findLang rest code

/-- `detectLanguage` (src/src/extension.js). -/
def detectLanguage (code : String) : String :=
  findLang languagePatterns code

/-- The eleven possible labels. -/
def languageLabels : List String :=
  ["python", "java", "cpp", "javascript", "csharp", "ruby", "php", "swift",
   "go", "rust", "unknown"]

theorem findLang_mem (table : List (String × Rx)) (code : String) :
    findLang table code = "unknown" ∨
      findLang table code ∈ table.map Prod.fst := by
  induction table with
  | nil => exact Or.inl rfl
  | cons p rest ih =>
      obtain ⟨lang, rx⟩ := p
      by_cases h : rxTest rx code.data = true
      · exact Or.inr (by simp [findLang, h])
      · rcases ih with h1 | h1
        · exact Or.inl (by simp [findLang, h, h1])
        · refine Or.inr ?_
          simp only [findLang, if_neg h, List.map_cons]
          exact List.mem_cons_of_mem _ h1

theorem findLang_first (code : String) (pre : List (String × Rx)) :
    ∀ (lang : String) (rx : Rx) (post : List (String × Rx)),
      (∀ q ∈ pre, rxTest q.2 code.data = false) →
      rxTest rx code.data = true →
      findLang (pre ++ (lang, rx) :: post) code = lang := by
  induction pre with
  | nil =>
      intro lang rx post hpre hrx
      simp [findLang, hrx]
  | cons q rest ih =>
      intro lang rx post hpre hrx
      obtain ⟨ql, qr⟩ := q
      have hq : rxTest qr code.data = false := hpre (ql, qr) (by simp)
      rw [List.cons_append, findLang, if_neg (by simp [hq])]
      exact ih lang rx post (fun p hp => hpre p (by simp [hp])) hrx

/-- C10: `detectLanguage` is total — its result is always one of the eleven
labels — and it returns the first matching language in the fixed table
order: whenever every pattern before a table entry fails and that entry's
pattern matches, that entry's language is returned; in particular any code
matching the python pattern is labeled python, regardless of later patterns
such as ruby's. -/
theorem detectLanguage_total_first_match (code : String) :
    detectLanguage code ∈ languageLabels ∧
    (rxTest pythonRx code.data = true → detectLanguage code = "python") ∧
    (∀ (pre : List (String × Rx)) (lang : String) (rx : Rx)
        (post : List (String × Rx)),
      languagePatterns = pre ++ (lang, rx) :: post →
      (∀ q ∈ pre, rxTest q.2 code.data = false) →
      rxTest rx code.data = true →
      detectLanguage code = lang) := by
  refine ⟨?_, ?_, ?_⟩
  · rcases findLang_mem languagePatterns code with h | h
    · rw [detectLanguage, h]
      simp [languageLabels]
    · rw [detectLanguage]
      have hmap : languagePatterns.map Prod.fst =
          ["python", "java", "cpp", "javascript", "csharp", "ruby", "php",
           "swift", "go", "rust"] := rfl
      rw [hmap] at h
      simp only [languageLabels, List.mem_cons] at h ⊢
      tauto
  · intro h
    exact findLang_first code [] "python" pythonRx
      [("java", javaRx), ("cpp", cppRx), ("javascript", javascriptRx),
       ("csharp", csharpRx), ("ruby", rubyRx), ("php", phpRx),
       ("swift", swiftRx), ("go", goRx), ("rust", rustRx)]
      (fun q hq => absurd hq (List.not_mem_nil q)) h
  · intro pre lang rx post heq hpre hrx
    rw [detectLanguage, heq]
    exact findLang_first code pre lang rx post hpre hrx

/-- Witness for C10: "def f(" matches the python pattern and is labeled
python (it also matches ruby's `def` pattern, but python comes first). -/
theorem detectLanguage_total_first_match_witness :
    rxTest pythonRx ("def f(" : String).data = true ∧
    rxTest rubyRx ("def f(" : String).data = true ∧
    detectLanguage "def f(" = "python" :=
  ⟨by decide, by decide,
    (detectLanguage_total_first_match "def f(").2.1 (by decide)⟩

end DSXpert
